import Mathlib

/-!
Verification development for the Narwhal executor Subscriber pipeline.

The repository source `narwhal/executor/src/metrics.rs` is embedded directly
(metric registration, bucket boundaries, panic-on-duplicate behaviour).
The surrounding pipeline components (BatchSource, FetchScheduler,
SubDagReassembler, RecoveryTracker, Subscriber) are present in the
repository's design document but their code is not under the sources
provided; they are modelled from the specification text, each such
definition marked `Modelled from the spec:`.
-/

/-! ## Embedding of `narwhal/executor/src/metrics.rs` -/

/-- Bucket boundaries (seconds) of the latency histograms, from
`LATENCY_SEC_BUCKETS` in `metrics.rs`.  The Rust `f64` literals are all
exact decimals; we embed them as rationals. -/
def LATENCY_SEC_BUCKETS : List ℚ :=
  [0.005, 0.01, 0.02, 0.05, 0.1, 0.25, 0.5, 1.0, 2.0, 3.0, 5.0, 10.0, 20.0, 40.0, 60.0, 80.0,
   100.0, 200.0]

/-- Bucket boundaries of the `committed_subdag_batch_count` histogram, from
`POSITIVE_INT_BUCKETS` in `metrics.rs`. -/
def POSITIVE_INT_BUCKETS : List ℚ :=
  [1, 2, 5, 10, 20, 50, 100, 200, 500, 1000, 2000, 5000, 10000, 20000, 50000]

/-- The kind of a prometheus metric as used by `metrics.rs`: plain gauges and
counters, a counter vector with label names, and histograms carrying their
bucket boundaries. -/
inductive MetricKind where
  | intGauge : MetricKind
  | intCounter : MetricKind
  | intCounterVec (labelNames : List String) : MetricKind
  | histogram (buckets : List ℚ) : MetricKind
deriving DecidableEq, Repr

/-- A metric as registered by `metrics.rs`: its registry name and kind. -/
structure MetricSpec where
  name : String
  kind : MetricKind
deriving DecidableEq, Repr

/-- Embedding of prometheus `register_*_with_registry!(…).`: a registry is the
list of names registered so far; registering an already-present name fails
(`Err`, which `metrics.rs` unwraps into a panic, embedded as `none`). -/
def registerWithRegistry (m : MetricSpec) (registry : List String) :
    Option (MetricSpec × List String) :=
  if m.name ∈ registry then none else some (m, registry ++ [m.name])

/-- The `ExecutorMetrics` struct of `metrics.rs`: thirteen metrics. -/
structure ExecutorMetrics where
  tx_notifier : MetricSpec
  subscriber_local_fetch_latency : MetricSpec
  subscriber_remote_fetch_latency : MetricSpec
  subscriber_processed_batches : MetricSpec
  subscriber_current_round : MetricSpec
  subscriber_certificate_latency : MetricSpec
  subscriber_recovered_certificates_count : MetricSpec
  pending_remote_request_batch : MetricSpec
  waiting_elements_subscriber : MetricSpec
  batch_execution_latency : MetricSpec
  committed_subdag_batch_count : MetricSpec
  batch_fetch_for_committed_subdag_total_latency : MetricSpec
  subscriber_batch_fetch : MetricSpec
deriving DecidableEq, Repr

/-- Sequential registration of a list of metrics into a registry, stopping at
the first duplicate-name failure (which `metrics.rs` unwraps into a panic,
embedded as `none`); on success returns the grown registry. -/
def registerAll : List MetricSpec → List String → Option (List String)
  | [], registry => some registry
  | m :: rest, registry =>
    match registerWithRegistry m registry with
    | none => none
    | some (_, registry') => registerAll rest registry'

/-- The thirteen metrics registered by `ExecutorMetrics::new` in `metrics.rs`,
in source (registration) order, each with the kind and bucket configuration
of its `register_*_with_registry!` call. -/
def metricSpecs : List MetricSpec :=
  [⟨"tx_notifier", .intGauge⟩,
   ⟨"subscriber_local_fetch_latency", .histogram LATENCY_SEC_BUCKETS⟩,
   ⟨"subscriber_remote_fetch_latency", .histogram LATENCY_SEC_BUCKETS⟩,
   ⟨"subscriber_recovered_certificates_count", .intCounter⟩,
   ⟨"committed_subdag_batch_count", .histogram POSITIVE_INT_BUCKETS⟩,
   ⟨"batch_fetch_for_committed_subdag_total_latency", .histogram LATENCY_SEC_BUCKETS⟩,
   ⟨"subscriber_processed_batches", .intCounter⟩,
   ⟨"subscriber_current_round", .intGauge⟩,
   ⟨"pending_remote_request_batch", .intGauge⟩,
   ⟨"waiting_elements_subscriber", .intGauge⟩,
   ⟨"batch_execution_latency", .histogram LATENCY_SEC_BUCKETS⟩,
   ⟨"subscriber_certificate_latency", .histogram LATENCY_SEC_BUCKETS⟩,
   ⟨"subscriber_batch_fetch", .intCounterVec ["source", "status"]⟩]

/-- `ExecutorMetrics::new(registry)` from `metrics.rs`: registers the thirteen
metrics of `metricSpecs` in source order, unwrapping each result (any
duplicate-name failure panics, embedded as `none`); on success the struct
holds the registered metrics and the registry has grown by the thirteen
names. -/
def ExecutorMetrics.new (registry : List String) :
    Option (ExecutorMetrics × List String) :=
  match registerAll metricSpecs registry with
  | none => none
  | some registry' =>
    some
      ({ tx_notifier := ⟨"tx_notifier", .intGauge⟩
         subscriber_local_fetch_latency :=
           ⟨"subscriber_local_fetch_latency", .histogram LATENCY_SEC_BUCKETS⟩
         subscriber_remote_fetch_latency :=
           ⟨"subscriber_remote_fetch_latency", .histogram LATENCY_SEC_BUCKETS⟩
         subscriber_processed_batches := ⟨"subscriber_processed_batches", .intCounter⟩
         subscriber_current_round := ⟨"subscriber_current_round", .intGauge⟩
         subscriber_certificate_latency :=
           ⟨"subscriber_certificate_latency", .histogram LATENCY_SEC_BUCKETS⟩
         subscriber_recovered_certificates_count :=
           ⟨"subscriber_recovered_certificates_count", .intCounter⟩
         pending_remote_request_batch := ⟨"pending_remote_request_batch", .intGauge⟩
         waiting_elements_subscriber := ⟨"waiting_elements_subscriber", .intGauge⟩
         batch_execution_latency :=
           ⟨"batch_execution_latency", .histogram LATENCY_SEC_BUCKETS⟩
         committed_subdag_batch_count :=
           ⟨"committed_subdag_batch_count", .histogram POSITIVE_INT_BUCKETS⟩
         batch_fetch_for_committed_subdag_total_latency :=
           ⟨"batch_fetch_for_committed_subdag_total_latency", .histogram LATENCY_SEC_BUCKETS⟩
         subscriber_batch_fetch :=
           ⟨"subscriber_batch_fetch", .intCounterVec ["source", "status"]⟩ }, registry')

/-- The thirteen metric names registered by `ExecutorMetrics::new`, in
registration (source) order. -/
def executorMetricNames : List String :=
  ["tx_notifier", "subscriber_local_fetch_latency", "subscriber_remote_fetch_latency",
   "subscriber_recovered_certificates_count", "committed_subdag_batch_count",
   "batch_fetch_for_committed_subdag_total_latency", "subscriber_processed_batches",
   "subscriber_current_round", "pending_remote_request_batch", "waiting_elements_subscriber",
   "batch_execution_latency", "subscriber_certificate_latency", "subscriber_batch_fetch"]

/-! ## Data model of the Subscriber pipeline

Modelled from the spec: the pipeline code itself (BatchSource, FetchScheduler,
SubDagReassembler, RecoveryTracker, Subscriber) is not among the provided
sources; only its metrics surface is.  The definitions below follow the
specification text. -/

/-- A content-derived identifier for a batch of transactions. -/
abbrev BatchDigest := ℕ

/-- The transaction payload identified by a `BatchDigest`. -/
abbrev Batch := ℕ

/-- Modelled from the spec: a `Certificate` references a set of batch digests
and a round number. -/
structure Certificate where
  round : ℕ
  digests : List BatchDigest
deriving DecidableEq, Repr

/-- Modelled from the spec: a `SubDag` is an ordered sequence of certificates
committed together at one consensus decision. -/
structure SubDag where
  certificates : List Certificate
deriving DecidableEq, Repr

/-- All batch digests referenced by a sub-DAG's certificates, in certificate
order. -/
def subDagDigests (d : SubDag) : List BatchDigest :=
  (d.certificates.map Certificate.digests).flatten

/-- First-occurrence deduplication, as a set built by inserting digests in
encounter order. -/
def dedupFirst : List ℕ → List ℕ
  | [] => []
  | x :: xs => x :: dedupFirst (xs.filter fun y => y ≠ x)
termination_by l => l.length
decreasing_by
  simp only [List.length_cons]
  exact Nat.lt_succ_of_le (List.length_filter_le _ _)

/-- Modelled from the spec: the set of unique digests across all certificates
in the sub-DAG (digests referenced by multiple certificates deduplicated). -/
def uniqueDigests (d : SubDag) : List BatchDigest :=
  dedupFirst (subDagDigests d)

/-- Terminal fetch errors: `FetchExhausted` is raised after all retries for a
digest are consumed. -/
inductive FetchError where
  | FetchExhausted : FetchError
deriving DecidableEq, Repr

/-- Association-list lookup by first component. -/
def alookup {α : Type} (k : ℕ) : List (ℕ × α) → Option α
  | [] => none
  | (k', v) :: rest => if k = k' then some v else alookup k rest

/-- Fetches each digest of the list in order, stopping at the first terminal
failure; on success returns the per-digest results. -/
def fetchAll (fetchE : BatchDigest → Except FetchError Batch) :
    List BatchDigest → Except FetchError (List (BatchDigest × Batch))
  | [] => .ok []
  | dg :: rest =>
    match fetchE dg with
    | .error e => .error e
    | .ok b =>
      match fetchAll fetchE rest with
      | .error e => .error e
      | .ok tl => .ok ((dg, b) :: tl)

/-- Modelled from the spec: `SubDagReassembler.resolve` computes the unique
digests of the sub-DAG, issues one fetch per unique digest, awaits them all,
and reassembles results into the original per-certificate order; a terminal
failure on any digest aborts the whole sub-DAG. -/
def SubDagReassembler.resolveE (fetchE : BatchDigest → Except FetchError Batch)
    (d : SubDag) : Except FetchError (List (List Batch)) :=
  match fetchAll fetchE (uniqueDigests d) with
  | .error e => .error e
  | .ok results =>
    .ok (d.certificates.map fun c => c.digests.map fun dg => (alookup dg results).getD 0)

/-- Modelled from the spec: a remote fetch is retried up to the configured
attempt limit; `attempt k` is the result of the k-th physical try; when every
allowed attempt fails the fetch terminates with `FetchExhausted`.  The first
argument of the recursion is the number of attempts remaining, the second the
index of the next attempt. -/
def fetchRemoteWithRetry (attempt : ℕ → Option Batch) :
    ℕ → ℕ → Except FetchError Batch
  | 0, _ => .error .FetchExhausted
  | n + 1, k =>
    match attempt k with
    | some b => .ok b
    | none => fetchRemoteWithRetry attempt n (k + 1)

/-- Outcome of one physical fetch attempt, as recorded by the
`subscriber_batch_fetch` counter vector. -/
inductive Outcome where
  | localHit : Outcome
  | localMiss : Outcome
  | remoteSuccess : Outcome
  | remoteFailure : Outcome
deriving DecidableEq, Repr

/-- Trace of one `BatchSource.fetch` call: the result, the outcomes recorded,
and how many remote RPC calls were issued. -/
structure FetchTrace where
  result : Option Batch
  outcomes : List Outcome
  remoteCalls : ℕ
deriving DecidableEq, Repr

/-- Modelled from the spec: `BatchSource.fetch` first attempts local worker
storage (no network hop); on miss it issues a remote request to the known
peer worker. -/
def BatchSource.fetch (storage remoteReq : BatchDigest → Option Batch)
    (dg : BatchDigest) : FetchTrace :=
  match storage dg with
  | some b => ⟨some b, [.localHit], 0⟩
  | none =>
    match remoteReq dg with
    | some b => ⟨some b, [.localMiss, .remoteSuccess], 1⟩
    | none => ⟨none, [.localMiss, .remoteFailure], 1⟩

/-- The observability state touched by `BatchSource`: one counter per outcome
(the four label combinations of `subscriber_batch_fetch`) and the two latency
histograms `subscriber_local_fetch_latency` and
`subscriber_remote_fetch_latency`, each histogram as its list of recorded
observations. -/
structure MetricsState where
  localHitCount : ℕ
  localMissCount : ℕ
  remoteSuccessCount : ℕ
  remoteFailureCount : ℕ
  localLatencyObs : List ℕ
  remoteLatencyObs : List ℕ
deriving DecidableEq, Repr

/-- Total number of outcome-counter updates recorded so far. -/
def MetricsState.outcomeTotal (m : MetricsState) : ℕ :=
  m.localHitCount + m.localMissCount + m.remoteSuccessCount + m.remoteFailureCount

/-- Modelled from the spec: one physical local-storage attempt; records
exactly one outcome (local-hit or local-miss) and one observation in the
local-path latency histogram. -/
def localAttempt (storage : BatchDigest → Option Batch) (dg lat : ℕ)
    (m : MetricsState) : Option Batch × MetricsState :=
  match storage dg with
  | some b =>
    (some b, { m with localHitCount := m.localHitCount + 1,
                      localLatencyObs := m.localLatencyObs ++ [lat] })
  | none =>
    (none, { m with localMissCount := m.localMissCount + 1,
                    localLatencyObs := m.localLatencyObs ++ [lat] })

/-- Modelled from the spec: one physical remote attempt; records exactly one
outcome (remote-success or remote-failure) and one observation in the
remote-path latency histogram. -/
def remoteAttempt (remoteReq : BatchDigest → Option Batch) (dg lat : ℕ)
    (m : MetricsState) : Option Batch × MetricsState :=
  match remoteReq dg with
  | some b =>
    (some b, { m with remoteSuccessCount := m.remoteSuccessCount + 1,
                      remoteLatencyObs := m.remoteLatencyObs ++ [lat] })
  | none =>
    (none, { m with remoteFailureCount := m.remoteFailureCount + 1,
                    remoteLatencyObs := m.remoteLatencyObs ++ [lat] })

/-- Modelled from the spec: the `RecoveryTracker` holds the persisted cursor,
the round of the last successfully executed certificate. -/
structure RecoveryTracker where
  cursor : ℕ
deriving DecidableEq, Repr

/-- Modelled from the spec: `advance` rejects rounds that do not exceed the
stored value as a no-op (returning `false`), never corrupting the cursor;
otherwise it stores the new round. -/
def RecoveryTracker.advance (t : RecoveryTracker) (r : ℕ) : RecoveryTracker × Bool :=
  if r ≤ t.cursor then (t, false) else (⟨r⟩, true)

/-- Modelled from the spec: replay of one sub-DAG of round `r` against the
recovery cursor: already-covered rounds are skipped (no delivery), new rounds
are delivered and the cursor advanced. -/
def deliverStep (t : RecoveryTracker) (r : ℕ) : RecoveryTracker × Option ℕ :=
  if r ≤ t.cursor then (t, none) else (⟨r⟩, some r)

/-! ## FetchScheduler single-flight state machine -/

/-- Identifier for a logical caller (waiter) of the FetchScheduler. -/
abbrev Caller := ℕ

/-- The terminal result a waiter observes for a digest. -/
abbrev FetchResult := Except FetchError Batch

/-- Modelled from the spec: the FetchScheduler's observable state.  `table` is
the PendingFetch table (digest paired with its registered waiters);
`attempts` logs every physical fetch issuance; `completions` logs every
resolved fetch; `observed` logs, per waiter, the terminal result it received;
`counterUpdates` counts metric updates, one per physical attempt. -/
structure SchedState where
  table : List (BatchDigest × List Caller)
  attempts : List BatchDigest
  completions : List BatchDigest
  observed : List (Caller × BatchDigest × FetchResult)
  counterUpdates : ℕ

/-- The initial FetchScheduler state: nothing pending, nothing logged. -/
def SchedState.init : SchedState := ⟨[], [], [], [], 0⟩

/-- Modelled from the spec: `request(digest)`.  If a PendingFetch for the
digest already exists the caller is added as a waiter to the existing handle
(single-flight, no new physical attempt, no metric update); otherwise a fresh
PendingFetch is created and one physical fetch is issued. -/
def requestOp (s : SchedState) (c : Caller) (dg : BatchDigest) : SchedState :=
  match alookup dg s.table with
  | some _ =>
    { s with table := s.table.map fun p => if p.1 = dg then (p.1, p.2 ++ [c]) else p }
  | none =>
    { s with table := s.table ++ [(dg, [c])], attempts := s.attempts ++ [dg],
             counterUpdates := s.counterUpdates + 1 }

/-- Modelled from the spec: resolution of the pending fetch for a digest.
The PendingFetch is destroyed and every registered waiter is released with
the same terminal result. -/
def completeOp (s : SchedState) (dg : BatchDigest) (res : FetchResult) : SchedState :=
  match alookup dg s.table with
  | some ws =>
    { s with table := s.table.filter fun p => p.1 ≠ dg,
             completions := s.completions ++ [dg],
             observed := s.observed ++ ws.map fun c => (c, dg, res) }
  | none => s

/-- One step of the FetchScheduler: some caller issues a request, or an
in-flight fetch resolves. -/
inductive SchedStep : SchedState → SchedState → Prop where
  | request (s : SchedState) (c : Caller) (dg : BatchDigest) :
      SchedStep s (requestOp s c dg)
  | complete (s : SchedState) (dg : BatchDigest) (res : FetchResult) :
      SchedStep s (completeOp s dg res)

/-- States of the FetchScheduler reachable from the initial state. -/
inductive SchedReachable : SchedState → Prop where
  | init : SchedReachable SchedState.init
  | step {s s' : SchedState} : SchedReachable s → SchedStep s s' → SchedReachable s'

/-- The single-flight invariant of the FetchScheduler: pending-table keys are
distinct, every pending digest has exactly one more issued attempt than
completions (and non-pending digests have exactly as many), and the metric
counter equals the number of physical attempts. -/
def SchedInv (s : SchedState) : Prop :=
  (s.table.map Prod.fst).Nodup ∧
  (∀ dg : ℕ, s.attempts.count dg =
      s.completions.count dg + (if (alookup dg s.table).isSome then 1 else 0)) ∧
  s.counterUpdates = s.attempts.length

/-! ## FetchScheduler concurrency limiter -/

/-- Modelled from the spec: the remote-fetch admission state.  `limit` is the
global concurrency limit, `inflight` the digests with an in-flight remote
request, `queued` the FIFO queue of requests beyond the limit, and `gauge`
the `pending_remote_request_batch` gauge value. -/
structure LimState where
  limit : ℕ
  inflight : List BatchDigest
  queued : List BatchDigest
  gauge : ℕ
deriving DecidableEq, Repr

/-- The initial limiter state for a given concurrency limit. -/
def LimState.init (L : ℕ) : LimState := ⟨L, [], [], 0⟩

/-- Modelled from the spec: a new remote request arrives.  It starts
immediately when a slot is free and nothing is queued ahead of it; otherwise
it joins the FIFO queue. -/
def arriveOp (s : LimState) (dg : BatchDigest) : LimState :=
  if s.inflight.length < s.limit ∧ s.queued = [] then
    { s with inflight := s.inflight ++ [dg], gauge := s.gauge + 1 }
  else
    { s with queued := s.queued ++ [dg] }

/-- Modelled from the spec: admission of queued requests in FIFO order — only
the head of the queue may be admitted, and only when a slot is free. -/
def admitOp (s : LimState) : LimState :=
  match s.queued with
  | [] => s
  | dg :: rest =>
    if s.inflight.length < s.limit then
      { s with inflight := s.inflight ++ [dg], queued := rest, gauge := s.gauge + 1 }
    else s

/-- Modelled from the spec: an in-flight remote request finishes, freeing its
slot and decrementing the pending gauge. -/
def finishOp (s : LimState) (dg : BatchDigest) : LimState :=
  if dg ∈ s.inflight then
    { s with inflight := s.inflight.erase dg, gauge := s.gauge - 1 }
  else s

/-- One step of the limiter. -/
inductive LimStep : LimState → LimState → Prop where
  | arrive (s : LimState) (dg : BatchDigest) : LimStep s (arriveOp s dg)
  | admitNext (s : LimState) : LimStep s (admitOp s)
  | finish (s : LimState) (dg : BatchDigest) : LimStep s (finishOp s dg)

/-- Limiter states reachable from the initial state with limit `L`. -/
inductive LimReachable (L : ℕ) : LimState → Prop where
  | init : LimReachable L (LimState.init L)
  | step {s s' : LimState} : LimReachable L s → LimStep s s' → LimReachable L s'

/-- Invariant of the remote-fetch limiter: the stored limit is the configured
one, the number of in-flight remote requests never exceeds it, and the
pending gauge tracks the in-flight count. -/
def LimInv (L : ℕ) (s : LimState) : Prop :=
  s.limit = L ∧ s.inflight.length ≤ L ∧ s.gauge = s.inflight.length

/-! ## Bounded Notifier channel -/

/-- Modelled from the spec: the bounded channel from the Subscriber to the
Notifier.  `buffer` holds delivered-but-unconsumed sub-DAGs (identified by
natural numbers), `pushed` and `consumed` log all pushes and consumptions. -/
structure ChanState where
  capacity : ℕ
  buffer : List ℕ
  pushed : List ℕ
  consumed : List ℕ
deriving DecidableEq, Repr

/-- The initial channel state for a given capacity. -/
def ChanState.init (C : ℕ) : ChanState := ⟨C, [], [], []⟩

/-- Modelled from the spec: the Subscriber pushes a resolved sub-DAG.  When
the channel is full the push blocks — the state is unchanged and nothing is
dropped; the sub-DAG is only recorded as pushed once buffered. -/
def pushOp (s : ChanState) (d : ℕ) : ChanState :=
  if s.buffer.length < s.capacity then
    { s with buffer := s.buffer ++ [d], pushed := s.pushed ++ [d] }
  else s

/-- Modelled from the spec: the Notifier consumes the oldest buffered
sub-DAG. -/
def consumeOp (s : ChanState) : ChanState :=
  match s.buffer with
  | [] => s
  | d :: rest => { s with buffer := rest, consumed := s.consumed ++ [d] }

/-- One step of the channel. -/
inductive ChanStep : ChanState → ChanState → Prop where
  | push (s : ChanState) (d : ℕ) : ChanStep s (pushOp s d)
  | consume (s : ChanState) : ChanStep s (consumeOp s)

/-- Channel states reachable from the initial state with capacity `C`. -/
inductive ChanReachable (C : ℕ) : ChanState → Prop where
  | init : ChanReachable C (ChanState.init C)
  | step {s s' : ChanState} : ChanReachable C s → ChanStep s s' → ChanReachable C s'

/-- Invariant of the bounded Notifier channel: the stored capacity is the
configured one, at most capacity-many delivered-but-unconsumed sub-DAGs are
buffered, and every push is accounted for: nothing was ever dropped. -/
def ChanInv (C : ℕ) (s : ChanState) : Prop :=
  s.capacity = C ∧ s.buffer.length ≤ C ∧ s.pushed = s.consumed ++ s.buffer

/-! ## Helper lemmas -/

theorem mem_dedupFirst {a : ℕ} {l : List ℕ} : a ∈ dedupFirst l ↔ a ∈ l := by
  induction l using dedupFirst.induct with
  | case1 => simp [dedupFirst]
  | case2 x xs ih =>
    rw [dedupFirst]
    simp only [List.mem_cons, ih, List.mem_filter, decide_eq_true_eq]
    constructor
    · rintro (rfl | ⟨h, _⟩)
      · exact Or.inl rfl
      · exact Or.inr h
    · rintro (rfl | h)
      · exact Or.inl rfl
      · by_cases hax : a = x
        · exact Or.inl hax
        · exact Or.inr ⟨h, hax⟩

theorem nodup_dedupFirst {l : List ℕ} : (dedupFirst l).Nodup := by
  induction l using dedupFirst.induct with
  | case1 => simp [dedupFirst]
  | case2 x xs ih =>
    rw [dedupFirst]
    refine List.nodup_cons.mpr ⟨?_, ih⟩
    rw [mem_dedupFirst]
    simp [List.mem_filter]

theorem alookup_map_self {f : ℕ → ℕ} {a : ℕ} {l : List ℕ} (h : a ∈ l) :
    alookup a (l.map fun x => (x, f x)) = some (f a) := by
  induction l with
  | nil => cases h
  | cons x xs ih =>
    rcases List.mem_cons.mp h with rfl | h
    · simp [alookup]
    · by_cases hax : a = x
      · subst hax; simp [alookup]
      · simp only [List.map_cons, alookup, if_neg hax]
        exact ih h

theorem alookup_append {α : Type} {k : ℕ} {l l' : List (ℕ × α)} :
    alookup k (l ++ l') =
      match alookup k l with
      | some v => some v
      | none => alookup k l' := by
  induction l with
  | nil => simp [alookup]
  | cons p rest ih =>
    by_cases hk : k = p.1
    · simp [alookup, hk]
    · simp only [List.cons_append, alookup, if_neg hk]
      exact ih

theorem alookup_isSome_iff {α : Type} {k : ℕ} {l : List (ℕ × α)} :
    (alookup k l).isSome ↔ k ∈ l.map Prod.fst := by
  induction l with
  | nil => simp [alookup]
  | cons p rest ih =>
    by_cases hk : k = p.1
    · simp [alookup, hk]
    · simp only [alookup, if_neg hk, List.map_cons, List.mem_cons, ih]
      exact ⟨Or.inr, fun h => h.resolve_left hk⟩

theorem alookup_filter_self {α : Type} {dg : ℕ} {l : List (ℕ × α)} :
    alookup dg (l.filter fun p => p.1 ≠ dg) = none := by
  induction l with
  | nil => simp [alookup]
  | cons p rest ih =>
    by_cases hp : p.1 = dg
    · simpa [List.filter, hp] using ih
    · have hne : dg ≠ p.1 := fun h => hp h.symm
      simpa [List.filter, hp, alookup, if_neg hne] using ih

theorem alookup_filter_ne {α : Type} {dg k : ℕ} (hk : k ≠ dg) {l : List (ℕ × α)} :
    alookup k (l.filter fun p => p.1 ≠ dg) = alookup k l := by
  induction l with
  | nil => simp
  | cons p rest ih =>
    by_cases hp : p.1 = dg
    · have hkp : ¬ k = p.1 := fun h => hk (h ▸ hp)
      rw [List.filter_cons_of_neg (by simp [hp]), ih]
      simp [alookup, if_neg hkp]
    · rw [List.filter_cons_of_pos (by simp [hp])]
      by_cases hkp : k = p.1
      · simp [alookup, hkp]
      · simp only [alookup, if_neg hkp]
        exact ih

theorem update_waiters_keys {dg c : ℕ} {l : List (ℕ × List ℕ)} :
    ((l.map fun p => if p.1 = dg then (p.1, p.2 ++ [c]) else p).map Prod.fst) =
      l.map Prod.fst := by
  induction l with
  | nil => rfl
  | cons p rest ih =>
    by_cases hp : p.1 = dg <;> simp [hp, ih]

theorem alookup_update_waiters {dg c k : ℕ} {l : List (ℕ × List ℕ)} :
    alookup k (l.map fun p => if p.1 = dg then (p.1, p.2 ++ [c]) else p) =
      (alookup k l).map fun ws => if k = dg then ws ++ [c] else ws := by
  induction l with
  | nil => simp [alookup]
  | cons p rest ih =>
    rw [List.map_cons]
    by_cases hp : p.1 = dg
    · rw [if_pos hp]
      by_cases hk : k = p.1
      · subst hk
        simp [alookup, hp]
      · simp only [alookup, if_neg hk]
        exact ih
    · rw [if_neg hp]
      by_cases hk : k = p.1
      · subst hk
        simp [alookup, hp]
      · simp only [alookup, if_neg hk]
        exact ih

theorem schedInv_init : SchedInv SchedState.init := by
  refine ⟨by simp [SchedState.init], fun dg => ?_, by simp [SchedState.init]⟩
  simp [SchedState.init, alookup]

theorem schedInv_requestOp {s : SchedState} (h : SchedInv s) (c : Caller)
    (dg : BatchDigest) : SchedInv (requestOp s c dg) := by
  obtain ⟨h1, h2, h3⟩ := h
  unfold requestOp
  cases hlk : alookup dg s.table with
  | some ws =>
    refine ⟨?_, fun dg' => ?_, h3⟩
    · rw [update_waiters_keys]
      exact h1
    · have := h2 dg'
      simpa [alookup_update_waiters, Option.isSome_map] using this
  | none =>
    have hnotmem : dg ∉ s.table.map Prod.fst := by
      rw [← alookup_isSome_iff]
      simp [hlk]
    refine ⟨?_, fun dg' => ?_, ?_⟩
    · rw [List.map_append]
      refine List.Nodup.append h1 (by simp) ?_
      intro a ha hb
      simp only [List.map_cons, List.map_nil, List.mem_singleton] at hb
      subst hb
      exact hnotmem ha
    · have := h2 dg'
      by_cases hdg : dg' = dg
      · subst hdg
        rw [alookup_append] at *
        simp only [hlk] at this ⊢
        simp [alookup, List.count_append, this]
      · rw [alookup_append]
        cases hlk' : alookup dg' s.table with
        | some ws' =>
          simp only [hlk'] at this ⊢
          simpa [List.count_append, List.count_cons, hdg] using this
        | none =>
          simp only [hlk'] at this ⊢
          simp only [alookup, if_neg hdg]
          simpa [List.count_append, List.count_cons, hdg, alookup] using this
    · simp [h3, List.length_append]

theorem schedInv_completeOp {s : SchedState} (h : SchedInv s) (dg : BatchDigest)
    (res : FetchResult) : SchedInv (completeOp s dg res) := by
  obtain ⟨h1, h2, h3⟩ := h
  unfold completeOp
  cases hlk : alookup dg s.table with
  | some ws =>
    refine ⟨?_, fun dg' => ?_, h3⟩
    · exact h1.sublist (List.Sublist.map Prod.fst (List.filter_sublist s.table))
    · by_cases hdg : dg' = dg
      · rw [hdg, alookup_filter_self]
        have hthis := h2 dg
        rw [hlk] at hthis
        simp only [Option.isSome_some, if_true] at hthis
        simp [List.count_append, hthis]
      · rw [alookup_filter_ne hdg]
        have hthis := h2 dg'
        simp [List.count_append, List.count_cons, hdg, hthis]
  | none => exact ⟨h1, h2, h3⟩

theorem schedInv_reachable {s : SchedState} (h : SchedReachable s) : SchedInv s := by
  induction h with
  | init => exact schedInv_init
  | step _ hstep ih =>
    cases hstep with
    | request c dg => exact schedInv_requestOp ih c dg
    | complete dg res => exact schedInv_completeOp ih dg res

theorem limInv_arriveOp {L : ℕ} {s : LimState} (h : LimInv L s) (dg : BatchDigest) :
    LimInv L (arriveOp s dg) := by
  obtain ⟨h1, h2, h3⟩ := h
  unfold arriveOp
  by_cases hc : s.inflight.length < s.limit ∧ s.queued = []
  · rw [if_pos hc]
    refine ⟨h1, ?_, by simp [h3]⟩
    simp only [List.length_append, List.length_cons, List.length_nil]
    omega
  · rw [if_neg hc]
    exact ⟨h1, h2, h3⟩

theorem limInv_admitOp {L : ℕ} {s : LimState} (h : LimInv L s) :
    LimInv L (admitOp s) := by
  obtain ⟨h1, h2, h3⟩ := h
  unfold admitOp
  split
  · exact ⟨h1, h2, h3⟩
  · split
    · rename_i hc
      refine ⟨h1, ?_, by simp [h3]⟩
      simp only [List.length_append, List.length_cons, List.length_nil]
      omega
    · exact ⟨h1, h2, h3⟩

theorem limInv_finishOp {L : ℕ} {s : LimState} (h : LimInv L s) (dg : BatchDigest) :
    LimInv L (finishOp s dg) := by
  obtain ⟨h1, h2, h3⟩ := h
  unfold finishOp
  by_cases hc : dg ∈ s.inflight
  · rw [if_pos hc]
    refine ⟨h1, ?_, ?_⟩
    · calc (s.inflight.erase dg).length ≤ s.inflight.length :=
            (List.erase_sublist dg s.inflight).length_le
        _ ≤ L := h2
    · rw [List.length_erase_of_mem hc, h3]
  · rw [if_neg hc]
    exact ⟨h1, h2, h3⟩

theorem limInv_reachable {L : ℕ} {s : LimState} (h : LimReachable L s) : LimInv L s := by
  induction h with
  | init => exact ⟨rfl, by simp [LimState.init], by simp [LimState.init]⟩
  | step _ hstep ih =>
    cases hstep with
    | arrive dg => exact limInv_arriveOp ih dg
    | admitNext => exact limInv_admitOp ih
    | finish dg => exact limInv_finishOp ih dg

theorem chanInv_pushOp {C : ℕ} {s : ChanState} (h : ChanInv C s) (d : ℕ) :
    ChanInv C (pushOp s d) := by
  obtain ⟨h1, h2, h3⟩ := h
  unfold pushOp
  by_cases hc : s.buffer.length < s.capacity
  · rw [if_pos hc]
    refine ⟨h1, ?_, ?_⟩
    · simp only [List.length_append, List.length_cons, List.length_nil]
      omega
    · rw [h3, List.append_assoc]
  · rw [if_neg hc]
    exact ⟨h1, h2, h3⟩

theorem chanInv_consumeOp {C : ℕ} {s : ChanState} (h : ChanInv C s) :
    ChanInv C (consumeOp s) := by
  obtain ⟨h1, h2, h3⟩ := h
  unfold consumeOp
  split
  · exact ⟨h1, h2, h3⟩
  · rename_i d rest hb
    refine ⟨h1, ?_, ?_⟩
    · have hlen : s.buffer.length = rest.length + 1 := by rw [hb]; rfl
      dsimp only
      omega
    · dsimp only
      rw [h3, hb, List.append_assoc]
      simp

theorem chanInv_reachable {C : ℕ} {s : ChanState} (h : ChanReachable C s) :
    ChanInv C s := by
  induction h with
  | init => exact ⟨rfl, by simp [ChanState.init], by simp [ChanState.init]⟩
  | step _ hstep ih =>
    cases hstep with
    | push d => exact chanInv_pushOp ih d
    | consume => exact chanInv_consumeOp ih

theorem fetchAll_all_ok (fetchE : ℕ → Except FetchError ℕ) (f : ℕ → ℕ)
    (l : List ℕ) (h : ∀ dg ∈ l, fetchE dg = .ok (f dg)) :
    fetchAll fetchE l = .ok (l.map fun dg => (dg, f dg)) := by
  induction l with
  | nil => simp [fetchAll]
  | cons x xs ih =>
    have hx := h x (List.mem_cons_self x xs)
    have hxs := ih fun dg hdg => h dg (List.mem_cons_of_mem x hdg)
    simp [fetchAll, hx, hxs]

theorem fetchAll_error_of_mem (fetchE : ℕ → Except FetchError ℕ) {x : ℕ}
    {l : List ℕ} (hx : x ∈ l) (herr : fetchE x = .error .FetchExhausted) :
    fetchAll fetchE l = .error .FetchExhausted := by
  induction l with
  | nil => cases hx
  | cons y ys ih =>
    rcases List.mem_cons.mp hx with rfl | hmem
    · simp [fetchAll, herr]
    · cases hy : fetchE y with
      | error e =>
        cases e
        simp [fetchAll, hy]
      | ok b =>
        simp [fetchAll, hy, ih hmem]

theorem alookup_isSome_of_mem {α : Type} {k : ℕ} {v : α} {l : List (ℕ × α)}
    (h : (k, v) ∈ l) : (alookup k l).isSome := by
  rw [alookup_isSome_iff]
  exact List.mem_map_of_mem Prod.fst h

theorem alookup_eq_of_mem_nodup {α : Type} {k : ℕ} {v : α} {l : List (ℕ × α)}
    (hnd : (l.map Prod.fst).Nodup) (h : (k, v) ∈ l) : alookup k l = some v := by
  induction l with
  | nil => cases h
  | cons p rest ih =>
    rcases List.mem_cons.mp h with rfl | hmem
    · simp [alookup]
    · have hk : k ∈ rest.map Prod.fst := List.mem_map_of_mem Prod.fst hmem
      have hne : k ≠ p.1 := by
        intro hkp
        exact (List.nodup_cons.mp hnd).1 (hkp ▸ hk)
      simp only [alookup, if_neg hne]
      exact ih (List.nodup_cons.mp hnd).2 hmem

theorem fetchRemoteWithRetry_exhausted (attempt : ℕ → Option Batch) :
    ∀ (n start : ℕ), (∀ j, start ≤ j → j < start + n → attempt j = none) →
      fetchRemoteWithRetry attempt n start = .error .FetchExhausted := by
  intro n
  induction n with
  | zero => intro start _; rfl
  | succ n ih =>
    intro start h
    have hs : attempt start = none := h start (Nat.le_refl start) (by omega)
    rw [fetchRemoteWithRetry, hs]
    exact ih (start + 1) fun j hj1 hj2 => h j (by omega) (by omega)

theorem fetchRemoteWithRetry_ok (attempt : ℕ → Option Batch) (b : ℕ) :
    ∀ (n start k : ℕ), start ≤ k → k < start + n →
      (∀ j, start ≤ j → j < k → attempt j = none) → attempt k = some b →
      fetchRemoteWithRetry attempt n start = .ok b := by
  intro n
  induction n with
  | zero => intro start k h1 h2; omega
  | succ n ih =>
    intro start k h1 h2 hnone hk
    by_cases hsk : start = k
    · subst hsk
      rw [fetchRemoteWithRetry, hk]
    · have hs : attempt start = none := hnone start (Nat.le_refl start) (by omega)
      rw [fetchRemoteWithRetry, hs]
      exact ih (start + 1) k (by omega) (by omega)
        (fun j hj1 hj2 => hnone j (by omega) hj2) hk

theorem registerAll_some {specs : List MetricSpec} :
    ∀ {r r' : List String}, registerAll specs r = some r' →
      r' = r ++ specs.map MetricSpec.name := by
  induction specs with
  | nil =>
    intro r r' h
    simp only [registerAll, Option.some.injEq] at h
    simp [h]
  | cons m rest ih =>
    intro r r' h
    rw [registerAll] at h
    unfold registerWithRegistry at h
    by_cases hm : m.name ∈ r
    · rw [if_pos hm] at h
      cases h
    · rw [if_neg hm] at h
      rw [ih h]
      simp

theorem registerAll_none_of_mem {specs : List MetricSpec} {n : String} :
    ∀ {r : List String}, n ∈ specs.map MetricSpec.name → n ∈ r →
      registerAll specs r = none := by
  induction specs with
  | nil => intro r hn _; cases hn
  | cons m rest ih =>
    intro r hn hr
    rw [registerAll]
    unfold registerWithRegistry
    by_cases hm : m.name ∈ r
    · rw [if_pos hm]
    · rw [if_neg hm]
      have hn' : n ∈ rest.map MetricSpec.name := by
        rcases List.mem_cons.mp hn with heq | h
        · exact absurd (heq ▸ hr) hm
        · exact h
      exact ih hn' (List.mem_append_left _ hr)

theorem registerAll_isSome_of_fresh {specs : List MetricSpec} :
    ∀ {r : List String}, (specs.map MetricSpec.name).Nodup →
      (∀ n ∈ specs.map MetricSpec.name, n ∉ r) →
      (registerAll specs r).isSome := by
  induction specs with
  | nil => intro r _ _; simp [registerAll]
  | cons m rest ih =>
    intro r hnodup h
    rw [registerAll]
    unfold registerWithRegistry
    have hm : m.name ∉ r := h m.name (by simp)
    rw [if_neg hm]
    refine ih (List.nodup_cons.mp (by simpa using hnodup)).2 ?_
    intro n hn hmem
    rcases List.mem_append.mp hmem with h1 | h1
    · exact h n (by simp [hn]) h1
    · have hnm : n = m.name := by simpa using h1
      subst hnm
      exact (List.nodup_cons.mp (by simpa using hnodup)).1 hn

theorem metricNames_eq : metricSpecs.map MetricSpec.name = executorMetricNames := rfl

theorem metricNames_nodup : executorMetricNames.Nodup := by decide

theorem executorMetrics_new_registry {r r' : List String} {m : ExecutorMetrics}
    (h : ExecutorMetrics.new r = some (m, r')) : r' = r ++ executorMetricNames := by
  unfold ExecutorMetrics.new at h
  cases hra : registerAll metricSpecs r with
  | none => rw [hra] at h; cases h
  | some reg =>
    rw [hra] at h
    have hreg := registerAll_some hra
    simp only [Option.some.injEq, Prod.mk.injEq] at h
    rw [← h.2, hreg, metricNames_eq]

/-! ## Claim theorems -/

/-- C1: resolving a committed sub-DAG (with every fetch succeeding) delivers,
grouped per certificate in the sub-DAG's certificate order, the batch of
every digest each certificate references; flattened, the delivery is exactly
the referenced digest sequence in order (no duplicates, no omissions), and
each unique digest across the certificates is requested exactly once, with
digests shared by several certificates deduplicated for fetching yet
appearing under each referencing certificate. -/
theorem subDagReassembler_resolve_order (f : BatchDigest → Batch) (d : SubDag) :
    SubDagReassembler.resolveE (fun dg => .ok (f dg)) d =
      .ok (d.certificates.map fun c => c.digests.map f)
  ∧ (d.certificates.map fun c => c.digests.map f).flatten = (subDagDigests d).map f
  ∧ (uniqueDigests d).Nodup
  ∧ (∀ dg, dg ∈ uniqueDigests d ↔ dg ∈ subDagDigests d)
  ∧ (∀ dg, dg ∈ subDagDigests d → (uniqueDigests d).count dg = 1) := by
  refine ⟨?_, ?_, nodup_dedupFirst, fun dg => mem_dedupFirst, ?_⟩
  · unfold SubDagReassembler.resolveE
    rw [fetchAll_all_ok (fun dg => Except.ok (f dg)) f (uniqueDigests d) (fun dg _ => rfl)]
    dsimp only
    congr 1
    refine List.map_congr_left fun c hc => ?_
    refine List.map_congr_left fun dg hdg => ?_
    have hmem : dg ∈ subDagDigests d :=
      List.mem_flatten_of_mem (List.mem_map_of_mem Certificate.digests hc) hdg
    have hu : dg ∈ uniqueDigests d := mem_dedupFirst.mpr hmem
    rw [alookup_map_self hu]
    rfl
  · rw [subDagDigests, List.map_flatten, List.map_map]
    rfl
  · intro dg hdg
    exact List.count_eq_one_of_mem nodup_dedupFirst (mem_dedupFirst.mpr hdg)

/-- Witness for C1 at the spec scenario: a sub-DAG of two certificates
referencing digests {0,1} and {1,2}; the resolver delivers [[0,1],[1,2]] and
the unique digests requested are 0, 1, 2, once each. -/
theorem subDagReassembler_resolve_order_witness :
    SubDagReassembler.resolveE (fun dg => .ok dg) ⟨[⟨1, [0, 1]⟩, ⟨1, [1, 2]⟩]⟩ =
      .ok [[0, 1], [1, 2]]
  ∧ (uniqueDigests ⟨[⟨1, [0, 1]⟩, ⟨1, [1, 2]⟩]⟩).Nodup
  ∧ (uniqueDigests ⟨[⟨1, [0, 1]⟩, ⟨1, [1, 2]⟩]⟩).count 1 = 1 := by
  have h := subDagReassembler_resolve_order (fun dg => dg) ⟨[⟨1, [0, 1]⟩, ⟨1, [1, 2]⟩]⟩
  exact ⟨by simpa using h.1, h.2.2.1, h.2.2.2.2 1 (by decide)⟩

/-- C2: single-flight.  In every reachable FetchScheduler state each digest
has at most one PendingFetch (pending-table keys are distinct), a pending
digest with any set of registered waiters has exactly one outstanding
physical fetch attempt regardless of how many callers requested it, and on
completion every registered waiter observes the same terminal result. -/
theorem fetchScheduler_single_flight (s : SchedState) (h : SchedReachable s) :
    (s.table.map Prod.fst).Nodup
  ∧ (∀ dg ws, (dg, ws) ∈ s.table →
        s.attempts.count dg = s.completions.count dg + 1)
  ∧ (∀ dg ws res, (dg, ws) ∈ s.table → ∀ c ∈ ws,
        (c, dg, res) ∈ (completeOp s dg res).observed) := by
  obtain ⟨h1, h2, h3⟩ := schedInv_reachable h
  refine ⟨h1, ?_, ?_⟩
  · intro dg ws hmem
    have hsome : (alookup dg s.table).isSome = true := alookup_isSome_of_mem hmem
    have hcount := h2 dg
    rw [if_pos hsome] at hcount
    exact hcount
  · intro dg ws res hmem c hc
    have hlk : alookup dg s.table = some ws := alookup_eq_of_mem_nodup h1 hmem
    unfold completeOp
    rw [hlk]
    exact List.mem_append_right _ (List.mem_map_of_mem _ hc)

/-- Witness for C2: two callers (1 and 2) concurrently request digest 5; the
reachable state has distinct pending keys, exactly one physical attempt for
digest 5, and completing with result 7 releases caller 1 with that result. -/
theorem fetchScheduler_single_flight_witness :
    ((requestOp (requestOp SchedState.init 1 5) 2 5).table.map Prod.fst).Nodup
  ∧ (requestOp (requestOp SchedState.init 1 5) 2 5).attempts.count 5 =
      (requestOp (requestOp SchedState.init 1 5) 2 5).completions.count 5 + 1
  ∧ (1, 5, Except.ok 7) ∈
      (completeOp (requestOp (requestOp SchedState.init 1 5) 2 5) 5 (.ok 7)).observed := by
  have hreach : SchedReachable (requestOp (requestOp SchedState.init 1 5) 2 5) :=
    .step (.step .init (.request _ 1 5)) (.request _ 2 5)
  have h := fetchScheduler_single_flight _ hreach
  exact ⟨h.1, h.2.1 5 [1, 2] (by decide), h.2.2 5 [1, 2] (.ok 7) (by decide) 1 (by decide)⟩

/-- C3: a remote fetch whose every allowed attempt fails terminates with
`FetchExhausted`; a fetch with a successful attempt within the limit
succeeds (transient failures before it are retried internally and never
surfaced); `FetchExhausted` on any digest referenced by a sub-DAG aborts
resolution of that sub-DAG (it is not delivered); and the error is
propagated to every waiter registered for that digest. -/
theorem fetchExhausted_propagation (attempt : ℕ → Option Batch) (limit k b : ℕ)
    (fetchE : BatchDigest → Except FetchError Batch) (d : SubDag) (x : BatchDigest)
    (s : SchedState) (ws : List Caller) :
    ((∀ j, j < limit → attempt j = none) →
        fetchRemoteWithRetry attempt limit 0 = .error .FetchExhausted)
  ∧ (k < limit → (∀ j, j < k → attempt j = none) → attempt k = some b →
        fetchRemoteWithRetry attempt limit 0 = .ok b)
  ∧ (x ∈ subDagDigests d → fetchE x = .error .FetchExhausted →
        SubDagReassembler.resolveE fetchE d = .error .FetchExhausted)
  ∧ (alookup x s.table = some ws → ∀ c ∈ ws,
        (c, x, Except.error FetchError.FetchExhausted) ∈
          (completeOp s x (.error .FetchExhausted)).observed) := by
  refine ⟨?_, ?_, ?_, ?_⟩
  · intro h
    exact fetchRemoteWithRetry_exhausted attempt limit 0 fun j _ hj2 => h j (by omega)
  · intro hk hnone hsome
    exact fetchRemoteWithRetry_ok attempt b limit 0 k (by omega) (by omega)
      (fun j _ hj2 => hnone j hj2) hsome
  · intro hx herr
    unfold SubDagReassembler.resolveE
    have hu : x ∈ uniqueDigests d := mem_dedupFirst.mpr hx
    rw [fetchAll_error_of_mem fetchE hu herr]
  · intro hlk c hc
    unfold completeOp
    rw [hlk]
    exact List.mem_append_right _ (List.mem_map_of_mem _ hc)

/-- Witness for C3 at the spec scenario: a remote fetch failing all 3
configured attempts yields `FetchExhausted`; a fetch succeeding at attempt 1
of 3 returns the batch; the sub-DAG referencing exhausted digest 4 is not
delivered; the waiting caller 1 observes the error. -/
theorem fetchExhausted_propagation_witness :
    fetchRemoteWithRetry (fun _ => none) 3 0 = .error .FetchExhausted
  ∧ fetchRemoteWithRetry (fun j => if j = 1 then some 9 else none) 3 0 = .ok 9
  ∧ SubDagReassembler.resolveE (fun _ => .error .FetchExhausted) ⟨[⟨1, [4]⟩]⟩ =
      .error .FetchExhausted
  ∧ (1, 4, Except.error FetchError.FetchExhausted) ∈
      (completeOp (requestOp SchedState.init 1 4) 4 (.error .FetchExhausted)).observed := by
  refine ⟨?_, ?_, ?_, ?_⟩
  · exact (fetchExhausted_propagation (fun _ => none) 3 0 0 (fun _ => .error .FetchExhausted)
      ⟨[⟨1, [4]⟩]⟩ 4 SchedState.init []).1 fun j _ => rfl
  · refine (fetchExhausted_propagation (fun j => if j = 1 then some 9 else none) 3 1 9
      (fun _ => .error .FetchExhausted) ⟨[⟨1, [4]⟩]⟩ 4 SchedState.init []).2.1
      (by omega) ?_ rfl
    intro j hj
    have hj0 : j = 0 := by omega
    subst hj0
    rfl
  · exact (fetchExhausted_propagation (fun _ => none) 3 0 0 (fun _ => .error .FetchExhausted)
      ⟨[⟨1, [4]⟩]⟩ 4 SchedState.init []).2.2.1 (by decide) rfl
  · exact (fetchExhausted_propagation (fun _ => none) 3 0 0 (fun _ => .error .FetchExhausted)
      ⟨[⟨1, [4]⟩]⟩ 4 (requestOp SchedState.init 1 4) [1]).2.2.2 (by decide) 1 (by decide)

/-- C4: `RecoveryTracker.advance` is monotonic: a round at most the stored
cursor is rejected as a no-op (returning the unchanged tracker and `false`,
not an error), the cursor never regresses, and replaying an
already-delivered sub-DAG produces no second delivery and leaves the cursor
unchanged. -/
theorem recoveryTracker_advance_monotonic (t : RecoveryTracker) (r : ℕ) :
    (r ≤ t.cursor → t.advance r = (t, false))
  ∧ t.cursor ≤ (t.advance r).1.cursor
  ∧ (deliverStep (deliverStep t r).1 r).2 = none
  ∧ (deliverStep (deliverStep t r).1 r).1 = (deliverStep t r).1 := by
  unfold RecoveryTracker.advance deliverStep
  by_cases hr : r ≤ t.cursor
  · simp [hr]
  · simp only [if_neg hr]
    refine ⟨fun h => absurd h hr, by omega, ?_, ?_⟩ <;> simp

/-- Witness for C4 at cursor 5, round 3 (already covered): advance is a
no-op, the cursor does not regress, and the replay delivers nothing. -/
theorem recoveryTracker_advance_monotonic_witness :
    RecoveryTracker.advance ⟨5⟩ 3 = (⟨5⟩, false)
  ∧ (5 : ℕ) ≤ (RecoveryTracker.advance ⟨5⟩ 3).1.cursor
  ∧ (deliverStep (deliverStep ⟨5⟩ 3).1 3).2 = none := by
  have h := recoveryTracker_advance_monotonic ⟨5⟩ 3
  exact ⟨h.1 (by decide), h.2.1, h.2.2.1⟩

/-- C5: backpressure safety.  In every reachable state of the bounded
Notifier channel with capacity C there are at most C delivered-but-unconsumed
sub-DAGs; every push is conserved (each pushed sub-DAG is either consumed or
still buffered, in order — nothing is dropped); and a push against a full
channel blocks, leaving the state unchanged rather than dropping. -/
theorem subscriber_backpressure (C : ℕ) (s : ChanState) (h : ChanReachable C s) :
    s.buffer.length ≤ C
  ∧ s.pushed = s.consumed ++ s.buffer
  ∧ (∀ d, s.buffer.length = s.capacity → pushOp s d = s) := by
  obtain ⟨h1, h2, h3⟩ := chanInv_reachable h
  refine ⟨h2, h3, ?_⟩
  intro d hfull
  unfold pushOp
  rw [if_neg (by omega)]

/-- Witness for C5 with capacity 1: after pushing sub-DAG 0 the buffer holds
one element (the bound), nothing was dropped, and a further push of sub-DAG 9
blocks as a no-op. -/
theorem subscriber_backpressure_witness :
    (pushOp (ChanState.init 1) 0).buffer.length ≤ 1
  ∧ (pushOp (ChanState.init 1) 0).pushed =
      (pushOp (ChanState.init 1) 0).consumed ++ (pushOp (ChanState.init 1) 0).buffer
  ∧ pushOp (pushOp (ChanState.init 1) 0) 9 = pushOp (ChanState.init 1) 0 := by
  have hreach : ChanReachable 1 (pushOp (ChanState.init 1) 0) :=
    .step .init (.push _ 0)
  have h := subscriber_backpressure 1 _ hreach
  exact ⟨h.1, h.2.1, h.2.2 9 (by decide)⟩

/-- C6: a digest present in local worker storage is served from local
storage with a single recorded local-hit outcome and zero remote RPC calls;
conversely any fetch that issued a remote call had missed locally first. -/
theorem batchSource_local_hit (storage remoteReq : BatchDigest → Option Batch)
    (dg b : BatchDigest) :
    (storage dg = some b →
        BatchSource.fetch storage remoteReq dg = ⟨some b, [Outcome.localHit], 0⟩)
  ∧ ((BatchSource.fetch storage remoteReq dg).remoteCalls ≠ 0 → storage dg = none) := by
  unfold BatchSource.fetch
  cases hs : storage dg with
  | some b' =>
    refine ⟨fun h => ?_, fun h => ?_⟩
    · rw [(Option.some.injEq _ _).mp h.symm]
    · simp at h
  | none =>
    refine ⟨fun h => ?_, fun _ => rfl⟩
    cases h

/-- Witness for C6 at the spec scenario: local storage holds digest 0 with
batch 3; the fetch returns it with a local-hit outcome and no remote call,
and a storage with a hit is indeed reported as such. -/
theorem batchSource_local_hit_witness :
    BatchSource.fetch (fun _ => some 3) (fun _ => none) 0 =
      ⟨some 3, [Outcome.localHit], 0⟩ := by
  exact (batchSource_local_hit (fun _ => some 3) (fun _ => none) 0 3).1 rfl

/-- C7: each physical fetch attempt records exactly one outcome and exactly
one latency observation, on the histogram of its own path (local attempts
never touch the remote histogram and conversely); in the single-flight
scheduler the metric counter is updated exactly once per physical attempt:
it equals the number of attempts in every reachable state, an additional
waiter on an existing PendingFetch updates no counter, and completion
(released to any number of waiters) updates no counter. -/
theorem batchSource_metrics_once_per_attempt
    (storage remoteReq : BatchDigest → Option Batch) (dg lat : ℕ)
    (m : MetricsState) (s : SchedState) (c : Caller) (res : FetchResult) :
    ((localAttempt storage dg lat m).2.outcomeTotal = m.outcomeTotal + 1)
  ∧ ((localAttempt storage dg lat m).2.localLatencyObs = m.localLatencyObs ++ [lat])
  ∧ ((localAttempt storage dg lat m).2.remoteLatencyObs = m.remoteLatencyObs)
  ∧ ((remoteAttempt remoteReq dg lat m).2.outcomeTotal = m.outcomeTotal + 1)
  ∧ ((remoteAttempt remoteReq dg lat m).2.remoteLatencyObs = m.remoteLatencyObs ++ [lat])
  ∧ ((remoteAttempt remoteReq dg lat m).2.localLatencyObs = m.localLatencyObs)
  ∧ (SchedReachable s → s.counterUpdates = s.attempts.length)
  ∧ ((alookup dg s.table).isSome → (requestOp s c dg).counterUpdates = s.counterUpdates)
  ∧ ((completeOp s dg res).counterUpdates = s.counterUpdates) := by
  refine ⟨?_, ?_, ?_, ?_, ?_, ?_, ?_, ?_, ?_⟩
  · unfold localAttempt
    cases storage dg <;> simp [MetricsState.outcomeTotal] <;> omega
  · unfold localAttempt
    cases storage dg <;> rfl
  · unfold localAttempt
    cases storage dg <;> rfl
  · unfold remoteAttempt
    cases remoteReq dg <;> simp [MetricsState.outcomeTotal] <;> omega
  · unfold remoteAttempt
    cases remoteReq dg <;> rfl
  · unfold remoteAttempt
    cases remoteReq dg <;> rfl
  · intro h
    exact (schedInv_reachable h).2.2
  · intro h
    unfold requestOp
    cases hlk : alookup dg s.table with
    | some ws => rfl
    | none => rw [hlk] at h; cases h
  · unfold completeOp
    cases alookup dg s.table <;> rfl

/-- Witness for C7: a local hit on digit 0 records one outcome and one local
latency observation and leaves the remote histogram alone; a remote failure
records one outcome on the remote path; in the scheduler, after one request
the counter equals the one attempt, a second waiter on digest 5 does not
update it, and completion does not update it. -/
theorem batchSource_metrics_once_per_attempt_witness :
    (localAttempt (fun _ => some 3) 0 11 ⟨0, 0, 0, 0, [], []⟩).2.outcomeTotal = 1
  ∧ (localAttempt (fun _ => some 3) 0 11 ⟨0, 0, 0, 0, [], []⟩).2.localLatencyObs = [11]
  ∧ (localAttempt (fun _ => some 3) 0 11 ⟨0, 0, 0, 0, [], []⟩).2.remoteLatencyObs = []
  ∧ (remoteAttempt (fun _ => none) 0 13 ⟨0, 0, 0, 0, [], []⟩).2.outcomeTotal = 1
  ∧ (requestOp SchedState.init 1 5).counterUpdates =
      (requestOp SchedState.init 1 5).attempts.length
  ∧ (requestOp (requestOp SchedState.init 1 5) 2 5).counterUpdates =
      (requestOp SchedState.init 1 5).counterUpdates
  ∧ (completeOp (requestOp SchedState.init 1 5) 5 (.ok 7)).counterUpdates =
      (requestOp SchedState.init 1 5).counterUpdates := by
  have h1 := batchSource_metrics_once_per_attempt (fun _ => some 3) (fun _ => none) 0 11
    ⟨0, 0, 0, 0, [], []⟩ SchedState.init 1 (.ok 7)
  have h2 := batchSource_metrics_once_per_attempt (fun _ => some 3) (fun _ => none) 0 13
    ⟨0, 0, 0, 0, [], []⟩ (requestOp SchedState.init 1 5) 2 (.ok 7)
  have hreach : SchedReachable (requestOp SchedState.init 1 5) :=
    .step .init (.request _ 1 5)
  have h3 := batchSource_metrics_once_per_attempt (fun _ => some 3) (fun _ => none) 5 13
    ⟨0, 0, 0, 0, [], []⟩ (requestOp SchedState.init 1 5) 2 (.ok 7)
  refine ⟨h1.1, h1.2.1, h1.2.2.1, h2.2.2.2.1, ?_, ?_, ?_⟩
  · exact h3.2.2.2.2.2.2.1 hreach
  · exact h3.2.2.2.2.2.2.2.1 (by decide)
  · exact h3.2.2.2.2.2.2.2.2

/-- C8: the number of in-flight remote fetches never exceeds the global
concurrency limit in any reachable limiter state, the pending-remote-request
gauge tracks the in-flight count, and queued requests are admitted in FIFO
order: exactly the queue head is admitted when a slot frees, and nothing is
admitted while the limit is reached. -/
theorem fetchScheduler_concurrency_limit (L : ℕ) (s : LimState) (h : LimReachable L s) :
    s.inflight.length ≤ L
  ∧ s.gauge = s.inflight.length
  ∧ (∀ dg rest, s.queued = dg :: rest → s.inflight.length < s.limit →
      admitOp s = { s with inflight := s.inflight ++ [dg], queued := rest,
                           gauge := s.gauge + 1 })
  ∧ (∀ dg rest, s.queued = dg :: rest → ¬ s.inflight.length < s.limit →
      admitOp s = s) := by
  obtain ⟨h1, h2, h3⟩ := limInv_reachable h
  refine ⟨h2, h3, ?_, ?_⟩
  · intro dg rest hq hlt
    simp only [admitOp, hq]
    rw [if_pos hlt]
  · intro dg rest hq hlt
    simp only [admitOp, hq]
    rw [if_neg hlt]

/-- Witness for C8 with limit 1: after request 7 is admitted and request 8
arrives, the in-flight count is at the limit, the gauge reads 1, and
admission of queued request 8 is blocked until a slot frees. -/
theorem fetchScheduler_concurrency_limit_witness :
    (arriveOp (arriveOp (LimState.init 1) 7) 8).inflight.length ≤ 1
  ∧ (arriveOp (arriveOp (LimState.init 1) 7) 8).gauge =
      (arriveOp (arriveOp (LimState.init 1) 7) 8).inflight.length
  ∧ admitOp (arriveOp (arriveOp (LimState.init 1) 7) 8) =
      arriveOp (arriveOp (LimState.init 1) 7) 8 := by
  have hreach : LimReachable 1 (arriveOp (arriveOp (LimState.init 1) 7) 8) :=
    .step (.step .init (.arrive _ 7)) (.arrive _ 8)
  have h := fetchScheduler_concurrency_limit 1 _ hreach
  exact ⟨h.1, h.2.1, h.2.2.2 8 [] (by decide) (by decide)⟩

/-- C9: `ExecutorMetrics::new(registry)` panics (unwrap of a registration
error, embedded as `none`) whenever any of its thirteen metric names is
already registered in the given registry; with all thirteen names fresh it
returns normally; and a second `new` on the registry grown by a first
successful call (the `Default` impl registering into the process-wide
default registry twice behaves the same way) panics. -/
theorem executorMetrics_new_panics_on_duplicate (r : List String) :
    (∀ n, n ∈ executorMetricNames → n ∈ r → ExecutorMetrics.new r = none)
  ∧ ((∀ n ∈ executorMetricNames, n ∉ r) → (ExecutorMetrics.new r).isSome)
  ∧ (∀ m r', ExecutorMetrics.new r = some (m, r') → ExecutorMetrics.new r' = none) := by
  refine ⟨?_, ?_, ?_⟩
  · intro n hn hr
    unfold ExecutorMetrics.new
    have hn' : n ∈ metricSpecs.map MetricSpec.name := by
      rw [metricNames_eq]; exact hn
    rw [registerAll_none_of_mem hn' hr]
  · intro h
    unfold ExecutorMetrics.new
    cases hra : registerAll metricSpecs r with
    | none =>
      exfalso
      have hnodup : (metricSpecs.map MetricSpec.name).Nodup := by
        rw [metricNames_eq]; exact metricNames_nodup
      have hfresh : ∀ n ∈ metricSpecs.map MetricSpec.name, n ∉ r := by
        rw [metricNames_eq]; exact h
      have hsome := registerAll_isSome_of_fresh hnodup hfresh
      rw [hra] at hsome
      cases hsome
    | some reg => rfl
  · intro m r' hsome
    have hr' := executorMetrics_new_registry hsome
    unfold ExecutorMetrics.new
    have hn : "tx_notifier" ∈ metricSpecs.map MetricSpec.name := by
      rw [metricNames_eq]; decide
    have hr2 : "tx_notifier" ∈ r' := by
      rw [hr']
      exact List.mem_append_right r (by decide)
    rw [registerAll_none_of_mem hn hr2]

/-- Witness for C9: registering into a registry already holding
`tx_notifier` panics; a fresh registry succeeds; re-registering into the
registry produced by the first call panics. -/
theorem executorMetrics_new_panics_on_duplicate_witness :
    ExecutorMetrics.new ["tx_notifier"] = none
  ∧ (ExecutorMetrics.new []).isSome = true
  ∧ ExecutorMetrics.new executorMetricNames = none := by
  have h := executorMetrics_new_panics_on_duplicate ["tx_notifier"]
  have h0 := executorMetrics_new_panics_on_duplicate []
  refine ⟨h.1 "tx_notifier" (by decide) (by decide), h0.2.1 (by decide), ?_⟩
  have hs := h0.2.1 (by decide)
  rcases Option.isSome_iff_exists.mp hs with ⟨p, hp⟩
  obtain ⟨m, r'⟩ := p
  have h3 := h0.2.2 m r' hp
  have hreg := executorMetrics_new_registry hp
  rw [List.nil_append] at hreg
  rw [hreg] at h3
  exact h3

/-- C10: on a fresh registry `ExecutorMetrics::new` registers exactly the
thirteen metrics; the five latency histograms all use the strictly
increasing `LATENCY_SEC_BUCKETS` boundaries (18 values from 0.005 to 200.0
seconds), and `committed_subdag_batch_count` uses `POSITIVE_INT_BUCKETS`
(15 values from 1 to 50000). -/
theorem executorMetrics_bucket_configuration :
    (ExecutorMetrics.new []).map Prod.snd = some executorMetricNames
  ∧ executorMetricNames.length = 13
  ∧ metricSpecs.map MetricSpec.name = executorMetricNames
  ∧ LATENCY_SEC_BUCKETS.length = 18
  ∧ List.Chain' (fun a b => a < b) LATENCY_SEC_BUCKETS
  ∧ LATENCY_SEC_BUCKETS.head? = some 0.005
  ∧ LATENCY_SEC_BUCKETS.getLast? = some 200
  ∧ POSITIVE_INT_BUCKETS.length = 15
  ∧ List.Chain' (fun a b => a < b) POSITIVE_INT_BUCKETS
  ∧ POSITIVE_INT_BUCKETS.head? = some 1
  ∧ POSITIVE_INT_BUCKETS.getLast? = some 50000
  ∧ (ExecutorMetrics.new []).map
      (fun p => p.1.subscriber_local_fetch_latency.kind) =
        some (.histogram LATENCY_SEC_BUCKETS)
  ∧ (ExecutorMetrics.new []).map
      (fun p => p.1.subscriber_remote_fetch_latency.kind) =
        some (.histogram LATENCY_SEC_BUCKETS)
  ∧ (ExecutorMetrics.new []).map
      (fun p => p.1.subscriber_certificate_latency.kind) =
        some (.histogram LATENCY_SEC_BUCKETS)
  ∧ (ExecutorMetrics.new []).map
      (fun p => p.1.batch_execution_latency.kind) =
        some (.histogram LATENCY_SEC_BUCKETS)
  ∧ (ExecutorMetrics.new []).map
      (fun p => p.1.batch_fetch_for_committed_subdag_total_latency.kind) =
        some (.histogram LATENCY_SEC_BUCKETS)
  ∧ (ExecutorMetrics.new []).map
      (fun p => p.1.committed_subdag_batch_count.kind) =
        some (.histogram POSITIVE_INT_BUCKETS) := by
  refine ⟨by rfl, by rfl, rfl, by rfl, ?_, by rfl, ?_, by rfl, ?_, by rfl, ?_,
    by rfl, by rfl, by rfl, by rfl, by rfl, by rfl⟩
  · norm_num [LATENCY_SEC_BUCKETS, List.chain'_cons, List.chain'_singleton]
  · norm_num [LATENCY_SEC_BUCKETS, List.getLast?_cons_cons, List.getLast?_singleton]
  · norm_num [POSITIVE_INT_BUCKETS, List.chain'_cons, List.chain'_singleton]
  · norm_num [POSITIVE_INT_BUCKETS, List.getLast?_cons_cons, List.getLast?_singleton]
